import Mathlib

/-!
Shallow embedding of the note-keeper frontend state manager
(`src/notes_app_frontend/src/App.js`): the note record, the
localStorage-backed load/save helpers, the derived sorted/filtered view
(`filteredNotes`), and the `App` handlers `handleNew`, `handleDelete`,
`handleChange`, `handleSelect`, together with proofs of the specified
properties of these operations.
-/

namespace NotesApp

/-- A note record, as described by the `@typedef Note` in App.js:
`id`, `title`, `content` are strings, `updatedAt` is a millisecond
timestamp (a JS integer, embedded as `Int`). -/
structure Note where
  id : String
  title : String
  content : String
  updatedAt : Int
deriving DecidableEq

/-- JSON values, the runtime values `JSON.parse` can produce.  JS numbers
occurring in this app (`Date.now()` timestamps) are integers, so numbers
are embedded as `Int`. -/
inductive Json where
  | jnull : Json
  | jbool : Bool → Json
  | jnum : Int → Json
  | jstr : String → Json
  | jarr : List Json → Json
  | jobj : List (String × Json) → Json

/-- The observable result of `localStorage.getItem(STORAGE_KEY)` composed
with `JSON.parse`: `none` when the slot is absent or empty (a falsy `raw`),
`some (Except.error ())` when `JSON.parse` throws, and
`some (Except.ok j)` when it yields the JSON value `j`. -/
def Storage : Type := Option (Except Unit Json)

/-- Embedding of `loadNotes` (App.js lines 18-28): absent storage, a parse
error, or a parsed value that is not an array all yield `[]`; a parsed
array is returned as is, with no validation of its elements.  The function
is total: it never raises. -/
def loadNotes : Storage → List Json
  | none => []
  | some (Except.error _) => []
  | some (Except.ok j) =>
    match j with
    | Json.jarr elems => elems
    | _ => []

/-- The JSON object `JSON.stringify` produces for a note record: the four
fields in the creation order used by `handleNew`. -/
def noteToJson (n : Note) : Json :=
  Json.jobj [("id", Json.jstr n.id), ("title", Json.jstr n.title),
    ("content", Json.jstr n.content), ("updatedAt", Json.jnum n.updatedAt)]

/-- Embedding of `saveNotes` (App.js lines 30-36): when the write succeeds
(`writeOk = true`) the storage slot is replaced by the serialized array of
note objects; when `setItem` throws (quota exceeded) the exception is
swallowed and the slot keeps its prior value. -/
def saveNotes (notes : List Note) (writeOk : Bool) (st : Storage) : Storage :=
  if writeOk then some (Except.ok (Json.jarr (notes.map noteToJson))) else st

/-- Reading a single note-like record, per the persistence format of the
spec (section 6): an object carrying string `id`, `title`, `content` and a
numeric `updatedAt`.  Used to state what "parseable as a note-like
record" means; `loadNotes` itself performs no such validation. -/
def noteFromJson : Json → Option Note
  | Json.jobj fields =>
    match fields.lookup "id", fields.lookup "title",
        fields.lookup "content", fields.lookup "updatedAt" with
    | some (Json.jstr i), some (Json.jstr t), some (Json.jstr c),
        some (Json.jnum u) => some ⟨i, t, c, u⟩
    | _, _, _, _ => none
  | _ => none

/-- Reading a whole collection: succeeds only when every element is a
note-like record. -/
def decodeNotes : List Json → Option (List Note)
  | [] => some []
  | j :: js =>
    match noteFromJson j, decodeNotes js with
    | some n, some ns => some (n :: ns)
    | _, _ => none

/-- Holds exactly when the storage slot parses to a JSON array (the only
case in which `loadNotes` returns a non-empty result). -/
def parsesToArray : Storage → Bool
  | some (Except.ok (Json.jarr _)) => true
  | _ => false

/-- Chars-level check that `pat` occurs at the start of `l`. -/
def charsStartWith : List Char → List Char → Bool
  | [], _ => true
  | _ :: _, [] => false
  | p :: ps, c :: cs => p == c && charsStartWith ps cs

/-- Chars-level check that `pat` occurs contiguously somewhere in `l`. -/
def charsContain : List Char → List Char → Bool
  | pat, [] => pat.isEmpty
  | pat, c :: cs => charsStartWith pat (c :: cs) || charsContain pat cs

/-- Embedding of JS `String.prototype.includes`: substring containment. -/
def jsIncludes (s pat : String) : Bool :=
  charsContain pat.data s.data

/-- Embedding of JS `String.prototype.toLowerCase`: lower-case every
character. -/
def jsLower (s : String) : String :=
  ⟨s.data.map Char.toLower⟩

/-- Embedding of JS `String.prototype.trim`: drop whitespace from both
ends. -/
def jsTrim (s : String) : String :=
  ⟨((s.data.dropWhile Char.isWhitespace).reverse.dropWhile
      Char.isWhitespace).reverse⟩

/-- The order underlying the comparator of `filteredNotes` (App.js line
193): `(a, b) => b.updatedAt - a.updatedAt` sorts `a` before `b` exactly
when `b.updatedAt ≤ a.updatedAt` (descending timestamps). -/
def UpdatedDesc (a b : Note) : Prop :=
  b.updatedAt ≤ a.updatedAt

instance : DecidableRel UpdatedDesc :=
  fun a b => inferInstanceAs (Decidable (b.updatedAt ≤ a.updatedAt))

instance : IsTotal Note UpdatedDesc :=
  ⟨fun a b => Int.le_total b.updatedAt a.updatedAt⟩

instance : IsTrans Note UpdatedDesc :=
  ⟨fun _ _ _ h1 h2 => le_trans h2 h1⟩

/-- Embedding of `[...notes].sort((a, b) => b.updatedAt - a.updatedAt)`: JS
`Array.prototype.sort` is a stable sort under the comparator's order,
embedded as the stable `List.insertionSort`. -/
def sortNotes (notes : List Note) : List Note :=
  notes.insertionSort UpdatedDesc

/-- The filter predicate of `filteredNotes` for an already trimmed and
lower-cased query `q`. -/
def matchesQuery (q : String) (n : Note) : Bool :=
  jsIncludes (jsLower n.title) q || jsIncludes (jsLower n.content) q

/-- Embedding of the `filteredNotes` memo (App.js lines 191-200) as a pure
function of the collection and the search text: sort a copy descending by
`updatedAt`; when the trimmed, lower-cased query is empty return the
sorted list, otherwise keep the entries whose lower-cased title or
content contains it. -/
def queryNotes (notes : List Note) (query : String) : List Note :=
  let q := jsLower (jsTrim query)
  let sorted := sortNotes notes
  if q = "" then sorted else sorted.filter (matchesQuery q)

/-- The React state of `App` (App.js lines 181-183): the collection, the
selected id (`null` embedded as `none`), and the search text. -/
structure AppState where
  notes : List Note
  selectedId : Option String
  query : String
deriving DecidableEq

/-- The `filteredNotes` memo over the current state. -/
def filteredNotes (st : AppState) : List Note :=
  queryNotes st.notes st.query

/-- The `selectedNote` memo (App.js lines 202-205):
`notes.find((n) => n.id === selectedId) || null`; a `null` selection
matches no string id. -/
def selectedNote (st : AppState) : Option Note :=
  match st.selectedId with
  | none => none
  | some sel => st.notes.find? (fun n => n.id == sel)

/-- Embedding of `handleSelect` (App.js line 208). -/
def handleSelect (id : String) (st : AppState) : AppState :=
  { st with selectedId := some id }

/-- Embedding of `handleNew` (App.js lines 210-219): build a note with empty title and
content, the current timestamp `now` and the id produced by
`generateId()`, prepend it, and select it. -/
def handleNew (newId : String) (now : Int) (st : AppState) : AppState :=
  { st with
    notes := ⟨newId, "", "", now⟩ :: st.notes,
    selectedId := some newId }

/-- Embedding of `handleDelete` (App.js lines 221-227): a falsy selection (`null` or the
empty string) makes it return immediately; otherwise the note with the
selected id is removed and the selection moves to the first remaining
entry of the filtered view (`remaining[0]?.id || null`, so a falsy empty
id also yields `null`). -/
def handleDelete (st : AppState) : AppState :=
  match st.selectedId with
  | none => st
  | some sel =>
    if sel = "" then st
    else
      let remaining := (filteredNotes st).filter (fun n => !(n.id == sel))
      { st with
        notes := st.notes.filter (fun n => !(n.id == sel)),
        selectedId :=
          match remaining.head? with
          | none => none
          | some n => if n.id = "" then none else some n.id }

/-- Embedding of `handleChange` (App.js lines 229-231): replace every entry whose id
equals `updated.id` by `updated`, in place. -/
def handleChange (updated : Note) (st : AppState) : AppState :=
  { st with
    notes := st.notes.map (fun n => if n.id == updated.id then updated else n) }

/-- The initial state of `App` (App.js lines 181-183) for a decoded
collection `loaded` read back from storage: the selection starts at the
first loaded note's id, or `null` when there is none. -/
def initState (loaded : List Note) : AppState :=
  { notes := loaded, selectedId := loaded.head?.map Note.id, query := "" }

/-! Helper lemmas shared by the claim theorems. -/

/-- Lower-casing never turns a non-empty string into the empty string. -/
theorem jsLower_ne_empty {s : String} (h : s ≠ "") : jsLower s ≠ "" := by
  intro hc
  apply h
  have h1 : s.data.map Char.toLower = [] := congrArg String.data hc
  have h2 : s.data = [] := by
    cases hd : s.data with
    | nil => rfl
    | cons a l => rw [hd] at h1; simp at h1
  cases hm : s with
  | mk d =>
    rw [hm] at h2
    simp only at h2
    rw [h2]

/-- Sorting permutes the collection. -/
theorem sortNotes_perm (l : List Note) : List.Perm (sortNotes l) l :=
  List.perm_insertionSort UpdatedDesc l

/-- The sorted view is descending in `updatedAt`. -/
theorem sortNotes_sorted (l : List Note) : (sortNotes l).Sorted UpdatedDesc :=
  List.sorted_insertionSort UpdatedDesc l

/-- Sorting an already descending list changes nothing. -/
theorem sortNotes_of_sorted {l : List Note} (h : l.Sorted UpdatedDesc) :
    sortNotes l = l :=
  h.insertionSort_eq

/-- Sorting is idempotent. -/
theorem sortNotes_idem (l : List Note) : sortNotes (sortNotes l) = sortNotes l :=
  sortNotes_of_sorted (sortNotes_sorted l)

/-- The membership of both branches of `queryNotes` is drawn from the
input collection. -/
theorem mem_of_mem_queryNotes {x : Note} {l : List Note} {q : String}
    (h : x ∈ queryNotes l q) : x ∈ l := by
  simp only [queryNotes] at h
  split at h
  · exact (sortNotes_perm l).mem_iff.mp h
  · exact (sortNotes_perm l).mem_iff.mp (List.mem_filter.mp h).1

/-- Replacing the entry with a matching id never changes the sequence of
ids of the collection. -/
theorem handleChange_map_id (u : Note) (st : AppState) :
    (handleChange u st).notes.map Note.id = st.notes.map Note.id := by
  simp only [handleChange, List.map_map]
  apply List.map_congr_left
  intro m _
  by_cases h : m.id = u.id
  · simp [Function.comp, h]
  · simp [Function.comp, h]

/-- Deletion only ever keeps a subsequence of the collection. -/
theorem handleDelete_notes_sublist (st : AppState) :
    (handleDelete st).notes.Sublist st.notes := by
  unfold handleDelete
  cases h : st.selectedId with
  | none => exact List.Sublist.refl _
  | some sel =>
    by_cases he : sel = ""
    · simp only [he, if_pos rfl]
      exact List.Sublist.refl _
    · simp only [if_neg he]
      exact List.filter_sublist _

/-- Decoding inverts the persisted encoding of one note. -/
theorem noteFromJson_noteToJson (n : Note) : noteFromJson (noteToJson n) = some n :=
  rfl

/-- Decoding inverts the persisted encoding of a whole collection. -/
theorem decodeNotes_map_noteToJson (X : List Note) :
    decodeNotes (X.map noteToJson) = some X := by
  induction X with
  | nil => rfl
  | cons n ns ih => simp only [List.map_cons, decodeNotes, noteFromJson_noteToJson, ih]

/-! Claim theorems. -/

/-- C2 counterexample: a storage slot holding the JSON array `[1]` is not
parseable as a sequence of note-like records, yet `loadNotes` returns its
element rather than the empty collection; the claim that every such state
loads as the empty collection is therefore false. -/
theorem c2_load_counterexample :
    decodeNotes (loadNotes (some (Except.ok (Json.jarr [Json.jnum 1])))) = none ∧
    loadNotes (some (Except.ok (Json.jarr [Json.jnum 1]))) ≠ [] :=
  ⟨rfl, List.cons_ne_nil _ _⟩

/-- C2 (amended): `loadNotes` is a total function (it never raises); it
returns the empty collection whenever storage is absent, not valid JSON,
or parses to a non-array value, and it returns the elements of a parsed
array unvalidated, even when they are not note-like records. -/
theorem c2_load_amended :
    (∀ st : Storage, parsesToArray st = false → loadNotes st = []) ∧
    (∀ elems : List Json, loadNotes (some (Except.ok (Json.jarr elems))) = elems) := by
  constructor
  · intro st h
    match st with
    | none => rfl
    | some (Except.error _) => rfl
    | some (Except.ok Json.jnull) => rfl
    | some (Except.ok (Json.jbool _)) => rfl
    | some (Except.ok (Json.jnum _)) => rfl
    | some (Except.ok (Json.jstr _)) => rfl
    | some (Except.ok (Json.jobj _)) => rfl
    | some (Except.ok (Json.jarr _)) => exact absurd h (by simp [parsesToArray])
  · intro elems
    rfl

/-- C2 amended witness: the absent-storage case loads as the empty
collection. -/
theorem c2_load_amended_witness : loadNotes none = [] :=
  c2_load_amended.1 none rfl

/-- C3: for every valid collection `X` and prior storage state, a
successful `saveNotes` followed by `loadNotes` yields back exactly `X`
(the loaded array of records decodes to `X`), with no concurrent writer
modelled in between. -/
theorem c3_save_load_roundtrip (X : List Note) (writeOk : Bool) (st : Storage)
    (h : writeOk = true) :
    decodeNotes (loadNotes (saveNotes X writeOk st)) = some X := by
  subst h
  simp only [saveNotes, if_pos rfl, loadNotes]
  exact decodeNotes_map_noteToJson X

/-- C3 witness: the round trip on a concrete two-note collection. -/
theorem c3_save_load_roundtrip_witness :
    decodeNotes (loadNotes (saveNotes [⟨"a", "A", "x", 100⟩, ⟨"b", "B", "y", 200⟩] true none)) =
      some [⟨"a", "A", "x", 100⟩, ⟨"b", "B", "y", 200⟩] :=
  c3_save_load_roundtrip [⟨"a", "A", "x", 100⟩, ⟨"b", "B", "y", 200⟩] true none rfl

/-- C4: for every collection and every search string that is empty after
trimming, the query returns a permutation of the collection (nothing is
filtered out) sorted descending by `updatedAt`. -/
theorem c4_empty_query_sorts (X : List Note) (s : String) (h : jsTrim s = "") :
    List.Perm (queryNotes X s) X ∧ (queryNotes X s).Sorted UpdatedDesc := by
  have hq : jsLower (jsTrim s) = "" := by rw [h]; rfl
  simp only [queryNotes, hq, if_pos rfl]
  exact ⟨sortNotes_perm X, sortNotes_sorted X⟩

/-- C4 witness: on notes with timestamps 100 and 200 and the empty search
string, the query is a descending permutation of the input (concretely it
is the 200-note followed by the 100-note). -/
theorem c4_empty_query_sorts_witness :
    List.Perm (queryNotes [⟨"a", "A", "", 100⟩, ⟨"b", "B", "", 200⟩] "")
      [⟨"a", "A", "", 100⟩, ⟨"b", "B", "", 200⟩] ∧
    (queryNotes [⟨"a", "A", "", 100⟩, ⟨"b", "B", "", 200⟩] "").Sorted UpdatedDesc :=
  c4_empty_query_sorts [⟨"a", "A", "", 100⟩, ⟨"b", "B", "", 200⟩] "" rfl

/-- A note used as a concrete counterexample input: its title contains the
letter `a` but not the three-character string of `a` surrounded by
spaces. -/
def noteXa : Note := ⟨"1", "xa", "", 0⟩

/-- C5 counterexample: with the search string of `a` surrounded by spaces,
the query keeps `noteXa` (the code matches against the trimmed,
lower-cased search text), although neither its title nor its content
contains that search string as a case-insensitive substring; the claim's
characterization of the result set is therefore false as stated. -/
theorem c5_filter_counterexample :
    queryNotes [noteXa] " a " = [noteXa] ∧
    jsIncludes (jsLower noteXa.title) (jsLower " a ") = false ∧
    jsIncludes (jsLower noteXa.content) (jsLower " a ") = false := by
  decide

/-- C5 (amended): for every collection and every search string that is
non-empty after trimming, the query returns a subsequence of the
empty-search query containing exactly those notes whose lower-cased title
or content contains the trimmed, lower-cased search string as a
substring. -/
theorem c5_filter_amended (X : List Note) (s : String) (h : jsTrim s ≠ "") :
    (queryNotes X s).Sublist (queryNotes X "") ∧
    (∀ n : Note, n ∈ queryNotes X s ↔
      n ∈ queryNotes X "" ∧ matchesQuery (jsLower (jsTrim s)) n = true) := by
  have hq : jsLower (jsTrim s) ≠ "" := jsLower_ne_empty h
  have h0 : queryNotes X "" = sortNotes X := rfl
  simp only [queryNotes, if_neg hq, h0]
  exact ⟨List.filter_sublist _, fun n => List.mem_filter⟩

/-- C5 amended witness: searching for `meet` among titles `Groceries` and
`Meeting notes` keeps a subsequence of the sorted view, and membership is
characterized by the case-insensitive containment check. -/
theorem c5_filter_amended_witness :
    (queryNotes [⟨"1", "Groceries", "", 100⟩, ⟨"2", "Meeting notes", "", 50⟩] "meet").Sublist
      (queryNotes [⟨"1", "Groceries", "", 100⟩, ⟨"2", "Meeting notes", "", 50⟩] "") ∧
    (∀ n : Note,
      n ∈ queryNotes [⟨"1", "Groceries", "", 100⟩, ⟨"2", "Meeting notes", "", 50⟩] "meet" ↔
      n ∈ queryNotes [⟨"1", "Groceries", "", 100⟩, ⟨"2", "Meeting notes", "", 50⟩] "" ∧
        matchesQuery (jsLower (jsTrim "meet")) n = true) :=
  c5_filter_amended [⟨"1", "Groceries", "", 100⟩, ⟨"2", "Meeting notes", "", 50⟩] "meet"
    (by decide)

/-- C6: querying the result of an empty-search query gives the same result
as querying the original collection, for every search string: filtering
after sorting is idempotent with respect to a prior empty-search query. -/
theorem c6_query_idempotent (X : List Note) (s : String) :
    queryNotes (queryNotes X "") s = queryNotes X s := by
  have h0 : queryNotes X "" = sortNotes X := rfl
  rw [h0]
  simp only [queryNotes, sortNotes_idem]

/-- C7: creating a note grows the collection by one, by prepending a note
with empty title, empty content, the current timestamp and the freshly
generated id, and selects that id; on an empty store the result is a
single-note collection whose note has empty title and content and whose
id equals the selection. -/
theorem c7_create_prepends (newId : String) (now : Int) (st : AppState) :
    (handleNew newId now st).notes.length = st.notes.length + 1 ∧
    (handleNew newId now st).notes.head? = some ⟨newId, "", "", now⟩ ∧
    (handleNew newId now st).notes.tail = st.notes ∧
    (handleNew newId now st).selectedId = some newId ∧
    (st.notes = [] →
      (handleNew newId now st).notes = [⟨newId, "", "", now⟩] ∧
      (handleNew newId now st).selectedId = some (Note.id ⟨newId, "", "", now⟩)) := by
  refine ⟨rfl, rfl, rfl, rfl, fun h => ?_⟩
  simp [handleNew, h]

/-- C7 witness: creating a note on the empty store. -/
theorem c7_create_prepends_witness :
    (handleNew "a" 5 ⟨[], none, ""⟩).notes = [⟨"a", "", "", 5⟩] ∧
    (handleNew "a" 5 ⟨[], none, ""⟩).selectedId = some (Note.id ⟨"a", "", "", 5⟩) :=
  (c7_create_prepends "a" 5 ⟨[], none, ""⟩).2.2.2.2 rfl

/-- C8: updating with a note value `u` replaces the entry whose id equals
`u.id` by `u` at its original position, leaves entries with other ids
unchanged at their positions, preserves the length, and is the identity
on the collection when no entry carries `u.id`. -/
theorem c8_update_replaces (st : AppState) (u : Note) (i : Nat) (m : Note) :
    (st.notes[i]? = some m → m.id = u.id → (handleChange u st).notes[i]? = some u) ∧
    (st.notes[i]? = some m → m.id ≠ u.id → (handleChange u st).notes[i]? = some m) ∧
    (handleChange u st).notes.length = st.notes.length ∧
    (u.id ∉ st.notes.map Note.id → (handleChange u st).notes = st.notes) := by
  refine ⟨fun h1 h2 => ?_, fun h1 h2 => ?_, by simp [handleChange], fun h => ?_⟩
  · simp [handleChange, h1, h2]
  · simp [handleChange, h1, h2]
  · simp only [handleChange]
    conv_rhs => rw [← List.map_id st.notes]
    apply List.map_congr_left
    intro a ha
    have : a.id ≠ u.id := fun hc => h (hc ▸ List.mem_map_of_mem Note.id ha)
    simp [this]

/-- C8 witness: the single matching entry is replaced in place. -/
theorem c8_update_replaces_witness :
    (handleChange ⟨"a", "T", "C", 5⟩ ⟨[⟨"a", "t", "c", 0⟩], some "a", ""⟩).notes[0]? =
      some ⟨"a", "T", "C", 5⟩ :=
  (c8_update_replaces ⟨[⟨"a", "t", "c", 0⟩], some "a", ""⟩ ⟨"a", "T", "C", 5⟩ 0
    ⟨"a", "t", "c", 0⟩).1 rfl rfl

/-- C9: deleting with a (truthy) selected id keeps exactly the notes whose
id differs from it; when the selected id is absent from the collection the
collection is unchanged and no error is raised; and deleting the only
note yields the empty collection and no selection. -/
theorem c9_delete_removes (st : AppState) (sel : String)
    (hsel : st.selectedId = some sel) (hne : sel ≠ "") :
    (∀ n : Note, n ∈ (handleDelete st).notes ↔ n ∈ st.notes ∧ n.id ≠ sel) ∧
    (sel ∉ st.notes.map Note.id → (handleDelete st).notes = st.notes) ∧
    (∀ n : Note, st.notes = [n] → n.id = sel →
      (handleDelete st).notes = [] ∧ (handleDelete st).selectedId = none) := by
  simp only [handleDelete, hsel, if_neg hne]
  refine ⟨fun n => ?_, fun h => ?_, fun n h1 h2 => ?_⟩
  · simp [List.mem_filter]
  · apply List.filter_eq_self.mpr
    intro a ha
    have : a.id ≠ sel := fun hc => h (hc ▸ List.mem_map_of_mem Note.id ha)
    simp [this]
  · have hrem : ((filteredNotes st).filter (fun n => !(n.id == sel))) = [] := by
      apply List.filter_eq_nil_iff.mpr
      intro a ha
      have hmem : a ∈ st.notes := mem_of_mem_queryNotes ha
      rw [h1] at hmem
      have : a = n := by simpa using hmem
      simp [this, h2]
    constructor
    · simp [h1, h2]
    · simp only [hrem, List.head?_nil]

/-- C9 witness: deleting the only note of a one-note collection. -/
theorem c9_delete_removes_witness :
    (handleDelete ⟨[⟨"a", "t", "c", 0⟩], some "a", ""⟩).notes = [] ∧
    (handleDelete ⟨[⟨"a", "t", "c", 0⟩], some "a", ""⟩).selectedId = none :=
  (c9_delete_removes ⟨[⟨"a", "t", "c", 0⟩], some "a", ""⟩ "a" rfl (by decide)).2.2
    ⟨"a", "t", "c", 0⟩ rfl rfl

/-- The mutating Note Store operations acting on the app state: Create
(`handleNew`, with the generated id and current timestamp as data),
Update (`handleChange`) and Delete (`handleDelete`). -/
inductive Op where
  | create (newId : String) (now : Int) : Op
  | update (u : Note) : Op
  | delete : Op

/-- Dispatch one operation to its handler. -/
def applyOp : Op → AppState → AppState
  | Op.create newId now, st => handleNew newId now st
  | Op.update u, st => handleChange u st
  | Op.delete, st => handleDelete st

/-- Run a sequence of operations from left to right. -/
def applyOps : List Op → AppState → AppState
  | [], st => st
  | o :: os, st => applyOps os (applyOp o st)

/-- No two notes of the collection share an id. -/
def uniqueIds (st : AppState) : Prop :=
  (st.notes.map Note.id).Nodup

/-- Holds when every Create of the sequence carries an id that is fresh at
its point of application, the behaviour `generateId` provides up to its
probabilistic collision guarantee. -/
def freshIdsOk : AppState → List Op → Bool
  | _, [] => true
  | st, o :: os =>
    (match o with
     | Op.create newId _ => !(decide (newId ∈ st.notes.map Note.id))
     | _ => true) && freshIdsOk (applyOp o st) os

/-- C1: starting from a collection with unique ids, every sequence of
Create/Update/Delete operations whose created ids are fresh on arrival
leaves every note id in the resulting collection unique. -/
theorem c1_ids_unique (ops : List Op) (st : AppState)
    (hfresh : freshIdsOk st ops = true) (h : uniqueIds st) :
    uniqueIds (applyOps ops st) := by
  induction ops generalizing st with
  | nil => exact h
  | cons o os ih =>
    simp only [freshIdsOk, Bool.and_eq_true] at hfresh
    refine ih (applyOp o st) hfresh.2 ?_
    cases o with
    | create newId now =>
      have hni : newId ∉ st.notes.map Note.id := by simpa using hfresh.1
      show ((⟨newId, "", "", now⟩ :: st.notes).map Note.id).Nodup
      rw [List.map_cons]
      exact List.nodup_cons.mpr ⟨hni, h⟩
    | update u =>
      show (( handleChange u st).notes.map Note.id).Nodup
      rw [handleChange_map_id]
      exact h
    | delete =>
      exact List.Nodup.sublist ((handleDelete_notes_sublist st).map Note.id) h

/-- An empty app state used to instantiate the sequence theorems. -/
def demoEmpty : AppState := ⟨[], none, ""⟩

/-- C1 witness: a concrete create/update/create/delete run from the empty
collection keeps ids unique. -/
theorem c1_ids_unique_witness :
    uniqueIds (applyOps
      [Op.create "a" 0, Op.update ⟨"a", "t", "c", 1⟩, Op.create "b" 2, Op.delete]
      demoEmpty) :=
  c1_ids_unique
    [Op.create "a" 0, Op.update ⟨"a", "t", "c", 1⟩, Op.create "b" 2, Op.delete]
    demoEmpty (by decide) List.nodup_nil

/-- The selection is `null` or the id of a note present in the
collection. -/
def SelValid (st : AppState) : Prop :=
  st.selectedId = none ∨ ∃ n ∈ st.notes, st.selectedId = some n.id

/-- One user-triggered transition of `App`: selecting a listed note,
creating, deleting, editing the title or content of the selected note
through the editor, or changing the search text. -/
inductive Step : AppState → AppState → Prop where
  | select (st : AppState) (n : Note) (h : n ∈ filteredNotes st) :
      Step st (handleSelect n.id st)
  | create (st : AppState) (newId : String) (now : Int) :
      Step st (handleNew newId now st)
  | delete (st : AppState) : Step st (handleDelete st)
  | editTitle (st : AppState) (n : Note) (t : String) (now : Int)
      (h : selectedNote st = some n) :
      Step st (handleChange { n with title := t, updatedAt := now } st)
  | editContent (st : AppState) (n : Note) (c : String) (now : Int)
      (h : selectedNote st = some n) :
      Step st (handleChange { n with content := c, updatedAt := now } st)
  | search (st : AppState) (q : String) : Step st { st with query := q }

/-- Updating preserves the validity of the selection, whatever note value
is supplied. -/
theorem selValid_handleChange (u : Note) {st : AppState} (h : SelValid st) :
    SelValid (handleChange u st) := by
  cases h with
  | inl h => exact Or.inl h
  | inr h =>
    obtain ⟨n, hn, heq⟩ := h
    right
    refine ⟨if n.id == u.id then u else n, List.mem_map_of_mem _ hn, ?_⟩
    show st.selectedId = some (if n.id == u.id then u else n).id
    have hid : (if n.id == u.id then u else n).id = n.id := by
      by_cases hc : n.id = u.id
      · simp [hc]
      · simp [hc]
    rw [hid]
    exact heq

/-- Deletion preserves the validity of the selection. -/
theorem selValid_handleDelete {st : AppState} (h : SelValid st) :
    SelValid (handleDelete st) := by
  cases hsel : st.selectedId with
  | none =>
    simp only [handleDelete, hsel]
    exact h
  | some sel =>
    by_cases he : sel = ""
    · simp only [handleDelete, hsel, if_pos he]
      exact h
    · simp only [handleDelete, hsel, if_neg he]
      cases hr : ((filteredNotes st).filter (fun n => !(n.id == sel))) with
      | nil =>
        left
        simp [hr]
      | cons a rest =>
        by_cases ha : a.id = ""
        · left
          simp [hr, ha]
        · right
          refine ⟨a, ?_, ?_⟩
          · have hmem : a ∈ (filteredNotes st).filter (fun n => !(n.id == sel)) := by
              rw [hr]
              exact List.mem_cons_self a rest
            have h1 := List.mem_filter.mp hmem
            exact List.mem_filter.mpr ⟨mem_of_mem_queryNotes h1.1, h1.2⟩
          · simp [hr, ha]

/-- The initial state selects the first loaded note, if any. -/
theorem selValid_initState (loaded : List Note) : SelValid (initState loaded) := by
  cases loaded with
  | nil => exact Or.inl rfl
  | cons a l => exact Or.inr ⟨a, List.mem_cons_self a l, rfl⟩

/-- C10: in every state reachable by the app's operations the selection is
`null` or the id of a present note: the initial state satisfies this, every
transition preserves it, and deleting with no selection changes neither
the collection nor the selection (nor anything else of the state). -/
theorem c10_selection_valid :
    (∀ loaded : List Note, SelValid (initState loaded)) ∧
    (∀ st st' : AppState, SelValid st → Step st st' → SelValid st') ∧
    (∀ st : AppState, st.selectedId = none → handleDelete st = st) := by
  refine ⟨selValid_initState, fun st st' hv hstep => ?_, fun st h => ?_⟩
  · cases hstep with
    | select n h => exact Or.inr ⟨n, mem_of_mem_queryNotes h, rfl⟩
    | create newId now =>
      exact Or.inr ⟨⟨newId, "", "", now⟩, List.mem_cons_self _ _, rfl⟩
    | delete => exact selValid_handleDelete hv
    | editTitle n t now h => exact selValid_handleChange _ hv
    | editContent n c now h => exact selValid_handleChange _ hv
    | search q => exact hv
  · simp only [handleDelete, h]

/-- C10 witness: a create step from the empty state keeps the selection
valid, and deleting with no selection is the identity. -/
theorem c10_selection_valid_witness :
    SelValid (handleNew "a" 0 demoEmpty) ∧ handleDelete demoEmpty = demoEmpty :=
  ⟨c10_selection_valid.2.1 demoEmpty (handleNew "a" 0 demoEmpty) (Or.inl rfl)
      (Step.create demoEmpty "a" 0),
    c10_selection_valid.2.2 demoEmpty rfl⟩

end NotesApp
